import Mathlib

/-!
Verification development for the sampled `flutter_rust_bridge` code-generator
sources: the delegate-type Rust generator (`generator/rust/ty_delegate.rs`),
the C linkage-anchor generator (`generator/c/mod.rs`), the external-tool
orchestration (`commands.rs`), and two generated example files.

Pure functions of the source are embedded as Lean functions; the strings the
generator emits are modelled as Lean `String`s (literal braces written with
escapes), and the run-time semantics of the emitted decode bodies are
modelled as explicit Lean functions named `*_semantics`/`*_decode`.
-/

namespace Frb

/-! ## Generic helpers -/

/-- Translation of Rust `Vec::join(sep)`: concatenate with a separator. -/
def join_str (sep : String) : List String → String
  | [] => ""
  | [a] => a
  | a :: b :: rest => a ++ sep ++ join_str sep (b :: rest)

/-- Translation of Rust `Iterator::enumerate` (indices from `i`). -/
def enumerateFrom (i : Nat) : List α → List (Nat × α)
  | [] => []
  | a :: l => (i, a) :: enumerateFrom (i + 1) l

/-! ## Target accumulator

Modelled from the spec: the `Acc` container (crate `target.rs`, not among the
sampled sources) holds one optional fragment per execution target plus a
shared slot; `distribute` places one fragment into both target slots. -/

structure Acc (α : Type) where
  io : α
  wasm : α
  shared : α
deriving Repr, DecidableEq

/-- Modelled from the spec: the all-empty accumulator (`Default::default()`). -/
def Acc.empty : Acc (Option α) := ⟨none, none, none⟩

/-- Modelled from the spec: `Acc::distribute` puts the fragment into both the
natively-compiled and the script-engine slot. -/
def Acc.distribute (x : Option α) : Acc (Option α) := ⟨x, x, none⟩

/-! ## IR model (delegate types)

From `ir.rs` (usage visible in `ty_delegate.rs`): the closed set of delegate
type variants.  The `PrimitiveEnum` variant in the source holds a reference
resolved through the IR file (`ir.get(self.context.ir_file)`); here the
resolved enum definition is carried directly. -/

structure IrEnum where
  name : String
  wrapper_name : Option String
  variants : List String
deriving Repr, DecidableEq

inductive IrTypePrimitive
  | u8
  | i32
  | i64
deriving Repr, DecidableEq

inductive IrTypeTime
  | Naive
  | Utc
  | Local
  | Duration
deriving Repr, DecidableEq

inductive IrTypeDelegate
  | String
  | ZeroCopyBufferVecPrimitive (prim : IrTypePrimitive)
  | StringList
  | PrimitiveEnum (enu : IrEnum)
  | Time (time : IrTypeTime)
deriving Repr, DecidableEq

/-! ## `wire2api_body` (ty_delegate.rs lines 27-98) -/

/-- Modelled from the spec: `TypeGeneralListGenerator::WIRE2API_BODY_IO`, a
constant defined in the general-list generator, which is not among the
sampled sources. -/
def WIRE2API_BODY_IO : String := "general-list wire2api body (io)"

/-- Modelled from the spec: `TypeGeneralListGenerator::WIRE2API_BODY_WASM`,
a constant defined in the general-list generator, which is not among the
sampled sources. -/
def WIRE2API_BODY_WASM : String := "general-list wire2api body (wasm)"

/-- The match arms emitted for a primitive-enum delegate:
`.variants().iter().enumerate()` paired as (index, variant name). -/
def enum_match_arms (variants : List String) : List (Nat × String) :=
  enumerateFrom 0 variants

/-- The decode `match` emitted for a primitive-enum delegate
(ty_delegate.rs lines 44-60): one arm `idx => Name::Variant,` per variant in
declaration order, then a catch-all `unreachable!` arm. -/
def primitive_enum_match_src (enu : IrEnum) : String :=
  let variants := join_str "\n"
    ((enum_match_arms enu.variants).map
      (fun p => toString p.1 ++ " => " ++ enu.name ++ "::" ++ p.2 ++ ","))
  "match self \x7b\n                        " ++ variants ++
    "\n                        _ => unreachable!(\"Invalid variant for " ++
    enu.name ++ ": \x7b\x7d\", self),\n                    \x7d"

/-- Emitted io time-decode statements (ty_delegate.rs lines 70-72). -/
def codegen_io_src : String :=
  "\n              let s = (self / 1_000_000) as i64;\n              let ns = (self.rem_euclid(1_000_000) * 1_000) as u32;"

/-- Emitted wasm time-decode statements (ty_delegate.rs lines 73-75). -/
def codegen_wasm_src : String :=
  "\n              let s = (self / 1_000) as i64;\n              let ns = (self.rem_euclid(1_000) * 1_000_000) as u32;"

/-- Emitted conversion expression per time variant
(ty_delegate.rs lines 76-84). -/
def codegen_conversion_src (t : IrTypeTime) : String :=
  let codegen_naive := "chrono::NaiveDateTime::from_timestamp(s, ns)"
  let codegen_utc :=
    "chrono::DateTime::<chrono::Utc>::from_utc(" ++ codegen_naive ++ ", chrono::Utc)"
  let codegen_local := "chrono::DateTime::<chrono::Local>::from(" ++ codegen_utc ++ ")"
  match t with
  | .Naive => codegen_naive
  | .Utc => codegen_utc
  | .Local => codegen_local
  | .Duration => ""

/-- `wire2api_body` for delegate types (ty_delegate.rs lines 27-98).  The
`format!(..).into()` on the primitive-enum arm converts a `String` into an
accumulator by distribution. -/
def wire2api_body : IrTypeDelegate → Acc (Option String)
  | .String =>
    { Acc.empty with
      wasm := some "self"
      io := some "let vec: Vec<u8> = self.wire2api(); String::from_utf8_lossy(&vec).into_owned()" }
  | .ZeroCopyBufferVecPrimitive _ =>
    Acc.distribute (some "ZeroCopyBuffer(self.wire2api())")
  | .StringList =>
    { Acc.empty with io := some WIRE2API_BODY_IO, wasm := some WIRE2API_BODY_WASM }
  | .PrimitiveEnum enu => Acc.distribute (some (primitive_enum_match_src enu))
  | .Time t =>
    if t = IrTypeTime.Duration then
      { Acc.empty with
        io := some "chrono::Duration::microseconds(self)"
        wasm := some "chrono::Duration::milliseconds(self)" }
    else
      { Acc.empty with
        io := some ("\n                " ++ codegen_io_src ++ "\n                " ++
          codegen_conversion_src t ++ "\n                ")
        wasm := some ("\n                " ++ codegen_wasm_src ++ "\n                " ++
          codegen_conversion_src t ++ "\n                ") }

/-! ## Semantics of the emitted enum decode (claim C1) -/

/-- Run-time semantics of the emitted `match`: the wire integer is compared
against each arm's integer literal in order; the catch-all arm is the
`unreachable!` panic, modelled as `none`. -/
def eval_enum_match : List (Nat × String) → Int → Option String
  | [], _ => none
  | (i, n) :: rest, v => if v = (i : Int) then some n else eval_enum_match rest v

/-! ## Semantics of the emitted time decode (claim C2) -/

/-- Run-time semantics of the emitted io time-decode statements
(`self / 1_000_000` is Rust truncating `i64` division, `rem_euclid` is the
Euclidean remainder): result is (seconds, nanoseconds).  All intermediate
values fit in `i64`/`u32` for any `i64` input, so unbounded integers are a
faithful model. -/
def time_decode_io (v : Int) : Int × Int :=
  (Int.tdiv v 1000000, Int.emod v 1000000 * 1000)

/-- Run-time semantics of the emitted wasm time-decode statements. -/
def time_decode_wasm (v : Int) : Int × Int :=
  (Int.tdiv v 1000, Int.emod v 1000 * 1000000)

/-! ## Semantics of the emitted String decode (claim C8)

The io body calls Rust `String::from_utf8_lossy`.  That function is external
standard-library code; its semantics are modelled here: a total UTF-8
decoder that substitutes U+FFFD for invalid bytes instead of failing.
`utf8_head` recognises one well-formed UTF-8 sequence (rejecting overlong
forms, surrogates and values above U+10FFFF, as Rust does). -/

def is_utf8_cont (b : Nat) : Bool := 0x80 ≤ b && b ≤ 0xBF

/-- Recognise one well-formed UTF-8 sequence starting at byte `b0`:
returns the decoded scalar value and the remaining bytes. -/
def utf8_head (b0 : Nat) (rest : List Nat) : Option (Nat × List Nat) :=
  if b0 < 0x80 then some (b0, rest)
  else if 0xC2 ≤ b0 && b0 ≤ 0xDF then
    match rest with
    | b1 :: r =>
      if is_utf8_cont b1 then some ((b0 - 0xC0) * 0x40 + (b1 - 0x80), r) else none
    | [] => none
  else if 0xE0 ≤ b0 && b0 ≤ 0xEF then
    match rest with
    | b1 :: b2 :: r =>
      let okb1 :=
        if b0 = 0xE0 then 0xA0 ≤ b1 && b1 ≤ 0xBF
        else if b0 = 0xED then 0x80 ≤ b1 && b1 ≤ 0x9F
        else is_utf8_cont b1
      if okb1 && is_utf8_cont b2 then
        some ((b0 - 0xE0) * 0x1000 + (b1 - 0x80) * 0x40 + (b2 - 0x80), r)
      else none
    | _ => none
  else if 0xF0 ≤ b0 && b0 ≤ 0xF4 then
    match rest with
    | b1 :: b2 :: b3 :: r =>
      let okb1 :=
        if b0 = 0xF0 then 0x90 ≤ b1 && b1 ≤ 0xBF
        else if b0 = 0xF4 then 0x80 ≤ b1 && b1 ≤ 0x8F
        else is_utf8_cont b1
      if okb1 && is_utf8_cont b2 && is_utf8_cont b3 then
        some ((b0 - 0xF0) * 0x40000 + (b1 - 0x80) * 0x1000 + (b2 - 0x80) * 0x40
          + (b3 - 0x80), r)
      else none
    | _ => none
  else none

/-- Strict UTF-8 decoding (semantics of Rust `String::from_utf8`): fails on
the first invalid byte.  Fuelled by the input length; every step consumes at
least one byte, so the fuel never runs out on the initial call. -/
def utf8_strict_aux : Nat → List Nat → Option (List Nat)
  | _, [] => some []
  | 0, _ :: _ => none
  | fuel + 1, b :: rest =>
    match utf8_head b rest with
    | some (u, rem) => (utf8_strict_aux fuel rem).map (fun l => u :: l)
    | none => none

def utf8_decode_strict (l : List Nat) : Option (List Nat) :=
  utf8_strict_aux l.length l

/-- Lossy UTF-8 decoding (semantics of Rust `String::from_utf8_lossy`):
invalid bytes decode to U+FFFD and decoding continues, so it is total. -/
def utf8_lossy_aux : Nat → List Nat → List Nat
  | _, [] => []
  | 0, _ :: _ => []
  | fuel + 1, b :: rest =>
    match utf8_head b rest with
    | some (u, rem) => u :: utf8_lossy_aux fuel rem
    | none => 0xFFFD :: utf8_lossy_aux fuel rest

/-- Semantics of the emitted io String decode body: the wire byte vector is
converted with `from_utf8_lossy`, which never fails. -/
def string_decode_io (bytes : List Nat) : Option (List Nat) :=
  some (utf8_lossy_aux bytes.length bytes)

/-! ## `allocate_funcs` (ty_delegate.rs lines 113-131, claim C10) -/

/-- Modelled from the spec: `generate_list_allocate_func` (defined in
`generator/rust/mod.rs`, not among the sampled sources) emits the named
allocation helper that materialises the wire list struct from API data. -/
def generate_list_allocate_func (safe_ident : String) (block_index : Nat) : String :=
  "support::new_leak_box_ptr allocation helper for " ++ safe_ident ++
    " (block " ++ toString block_index ++ ")"

/-- `allocate_funcs` (ty_delegate.rs lines 113-131): the StringList arm
places the allocation helper into the io slot only; every other delegate
returns the all-empty accumulator.  The source's `safe_ident()` for the
StringList delegate is collapsed to the literal ident. -/
def allocate_funcs (d : IrTypeDelegate) (block_index : Nat) : Acc (Option String) :=
  match d with
  | .StringList =>
    { Acc.empty with io := some (generate_list_allocate_func "StringList" block_index) }
  | _ => Acc.empty

/-! ## C linkage-anchor generator (generator/c/mod.rs) -/

/-- A character of the regex classes `\d`/`\w` (word character). -/
def isWordChar (c : Char) : Bool := c.isAlphanum || c == '_'

/-- The regex `wire_[\d\w]+` matches starting at the head of `l`. -/
def wire_match_at (l : List Char) : Bool :=
  match l with
  | 'w' :: 'i' :: 'r' :: 'e' :: '_' :: c :: _ => isWordChar c
  | _ => false

/-- `Regex::is_match` for `wire_[\d\w]+`: some position starts a match. -/
def wire_is_match : List Char → Bool
  | [] => false
  | c :: cs => wire_match_at (c :: cs) || wire_is_match cs

/-- One generation config (`Opts`): only the fields `generate_dummy` reads.
`unique_id` models `get_unique_id()` (modelled from the spec: the module's
caller-assigned unique identifier used as symbol prefix). -/
structure Opts where
  class_name : String
  c_output_path : List String
  block_index : Nat
  unique_id : String
deriving Repr, DecidableEq

/-- The name-prefixing map at the top of `generate_dummy` (c/mod.rs lines
16-25): names matched by `wire_[\d\w]+` get the module prefix prepended. -/
def apply_unique_pfx (pfx : String) (func_names : List String) : List String :=
  func_names.map fun e => if wire_is_match e.toList then pfx ++ e else e

/-- `get_dummy_signature` (c/mod.rs lines 85-90). -/
def get_dummy_signature (api_block_name : String) : String :=
  if api_block_name.isEmpty then "dummy_method_to_enforce_bundling"
  else "dummy_method_to_enforce_bundling_" ++ api_block_name

/-- One XOR line of `get_dummy_var` (c/mod.rs line 95). -/
def get_dummy_var_line (func_name : String) : String :=
  "    dummy_var ^= ((int64_t) (void*) " ++ func_name ++ ");"

/-- `get_dummy_var` (c/mod.rs lines 92-98): one line per name, joined. -/
def get_dummy_var (func_names : List String) : String :=
  join_str "\n" (func_names.map get_dummy_var_line)

/-- `get_dummy_func` (c/mod.rs lines 72-83). -/
def get_dummy_func (api_block_name : String) (func_names : List String)
    (pfx : String) : String :=
  "static int64_t " ++ pfx ++ get_dummy_signature api_block_name ++
    "(void) \x7b\n    int64_t dummy_var = 0;\n" ++ get_dummy_var func_names ++
    "\n    return dummy_var;\n\x7d\n"

/-- Modelled from the spec: split a path on the separator. -/
def splitPath (p : String) : List String := p.splitOn "/"

/-- Modelled from the spec: `PathExt::directory_name_str` (utils, not among
the sampled sources) — the directory part of a path. -/
def directory_name_str (p : String) : String :=
  join_str "/" (splitPath p).dropLast

/-- Modelled from the spec: `PathExt::file_name_str` — the file-name part. -/
def file_name_str (p : String) : String :=
  ((splitPath p).getLast?).getD ""

/-- Drop the common leading components of two component lists. -/
def drop_common : List String → List String → List String × List String
  | a :: as, b :: bs => if a = b then drop_common as bs else (a :: as, b :: bs)
  | as, bs => (as, bs)

/-- Modelled from the spec: `PathExt::get_relative_path_to` — the relative
directory from the source file's directory to the destination directory. -/
def get_relative_path_to (src_file dst_dir : String) : String :=
  let s := (splitPath src_file).dropLast
  let d := splitPath dst_dir
  let p := drop_common s d
  join_str "/" (p.1.map (fun _ => "..") ++ p.2)

/-- Modelled from the spec: `Path::join` of a relative directory and a file
name. -/
def path_join (a b : String) : String :=
  if a.isEmpty then b else a ++ "/" ++ b

/-- The `#include` line the root module emits for another module
(c/mod.rs lines 38-54): relative directory to that module's C output
directory joined with that module's output file name. -/
def include_line (config : Opts) (c_path_index : Nat) (e : Opts) : String :=
  let src_p := config.c_output_path.getD c_path_index ""
  let dst_p := e.c_output_path.getD c_path_index ""
  "#include \"" ++
    path_join (get_relative_path_to src_p (directory_name_str dst_p))
      (file_name_str dst_p) ++ "\""

/-- `generate_dummy` (c/mod.rs lines 8-70). -/
def generate_dummy (config : Opts) (all_configs : List Opts)
    (func_names : List String) (c_path_index : Nat) : String :=
  let pfx := config.unique_id
  let func_names := apply_unique_pfx pfx func_names
  if 1 < all_configs.length then
    let basic_dummy_func := get_dummy_func config.class_name func_names pfx
    if config.block_index = 0 then
      let sig_names := all_configs.map fun e => get_dummy_signature e.class_name
      let other_headers :=
        join_str "\n" ((all_configs.drop 1).map (include_line config c_path_index))
      basic_dummy_func ++ "\n" ++ other_headers ++ "\n" ++
        get_dummy_func "" sig_names pfx
    else basic_dummy_func
  else get_dummy_func "" func_names pfx

/-! ## External-tool orchestration (commands.rs) -/

/-- The error kinds of `crate::error::Error` used by `commands.rs` (the enum
itself is not among the sampled sources; variants are modelled from their
construction sites in `commands.rs`). -/
inductive CommandError
  | MissingExe (exe : String)
  | StringError (msg : String)
  | FfigenLlvm
  | Rustfmt (msg : String)
  | Dartfmt (msg : String)
deriving Repr, DecidableEq

/-- Rust `str::contains` for a literal pattern, over character lists. -/
def contains_sub (pat : List Char) : List Char → Bool
  | [] => pat.isEmpty
  | c :: cs => pat.isPrefixOf (c :: cs) || contains_sub pat cs

def str_contains (s pat : String) : Bool := contains_sub pat.toList s.toList

/-- The recognised ffigen failure signature (commands.rs line 198). -/
def ffigen_pat : String := "Couldn\x27t find dynamic library in default locations."

/-- The exit-classification tail of `ffigen` (commands.rs lines 195-204) as
a pure function of the captured exit status and streams (the streams are
modelled after `from_utf8_lossy` conversion). -/
def ffigen_outcome (success : Bool) (stderr stdout : String) :
    Except CommandError Unit :=
  if success then Except.ok ()
  else if str_contains stderr ffigen_pat || str_contains stdout ffigen_pat then
    Except.error CommandError.FfigenLlvm
  else
    Except.error (CommandError.StringError
      ("ffigen failed:\nstderr: " ++ stderr ++ "\nstdout: " ++ stdout))

/-! ## Toolchain preconditions (commands.rs lines 15-38) -/

/-- Modelled from the spec: a package version (major, minor, patch). -/
structure SemVer where
  major : Nat
  minor : Nat
  patch : Nat
deriving Repr, DecidableEq

/-- Lexicographic version comparison. -/
def SemVer.lt (a b : SemVer) : Bool :=
  a.major < b.major || (a.major == b.major && (a.minor < b.minor ||
    (a.minor == b.minor && a.patch < b.patch)))

/-- `FFI_REQUIREMENT`, the range `>= 2.0.1, < 3.0.0` (commands.rs 16-17). -/
def ffi_requirement_matches (v : SemVer) : Bool :=
  !(SemVer.lt v ⟨2, 0, 1⟩) && SemVer.lt v ⟨3, 0, 0⟩

/-- `FFIGEN_REQUIREMENT`, the range `>= 6.0.1, < 8.0.0` (commands.rs 18-19). -/
def ffigen_requirement_matches (v : SemVer) : Bool :=
  !(SemVer.lt v ⟨6, 0, 1⟩) && SemVer.lt v ⟨8, 0, 0⟩

/-- Modelled from the spec: the state of the Dart project that
`ensure_tools_available` consults (`DartRepository` lives in the utils
module, not among the sampled sources): the toolchain, and per package the
declared (manifest) and installed versions, `none` when absent. -/
structure DartRepository where
  toolchain : String
  toolchain_available : Bool
  ffi_specified : Option SemVer
  ffi_installed : Option SemVer
  ffigen_specified : Option SemVer
  ffigen_installed : Option SemVer
deriving Repr, DecidableEq

/-- Modelled from the spec: `has_specified` / `has_installed` succeed
exactly when the package's version is present and within the range. -/
def package_check (found : Option SemVer) (req : SemVer → Bool)
    (what : String) : Except CommandError Unit :=
  match found with
  | none => Except.error (CommandError.StringError (what ++ " not found"))
  | some v =>
    if req v then Except.ok ()
    else Except.error (CommandError.StringError (what ++ " version mismatch"))

/-- A package is both present and inside the accepted range. -/
def package_ok (found : Option SemVer) (req : SemVer → Bool) : Prop :=
  ∃ v, found = some v ∧ req v = true

/-- `ensure_tools_available` (commands.rs lines 22-38). -/
def ensure_tools_available (repo : DartRepository) (skip_deps_check : Bool) :
    Except CommandError Unit :=
  if !repo.toolchain_available then
    Except.error (CommandError.MissingExe repo.toolchain)
  else if skip_deps_check then Except.ok ()
  else do
    package_check repo.ffi_specified ffi_requirement_matches "ffi specified"
    package_check repo.ffi_installed ffi_requirement_matches "ffi installed"
    package_check repo.ffigen_specified ffigen_requirement_matches "ffigen specified"
    package_check repo.ffigen_installed ffigen_requirement_matches "ffigen installed"

/-! ## Generated example wire functions (claim C9) -/

inductive WireAttr
  | no_mangle_extern_c
  | wasm_bindgen
deriving Repr, DecidableEq

/-- One generated exported wire function: attribute, symbol name, parameter
list (name, type), and the forwarding call it makes. -/
structure WireFunc where
  attr : WireAttr
  name : String
  params : List (String × String)
  callee : String
  call_args : List String
deriving Repr, DecidableEq

/-- Transcription of `generated_api_2.io.rs` lines 4-7. -/
def P7C55DD6B_wire_simple_adder_2 : WireFunc :=
  { attr := .no_mangle_extern_c
    name := "P7C55DD6B_wire_simple_adder_2"
    params := [("port_", "i64"), ("a", "i32"), ("b", "i32")]
    callee := "P7C55DD6B_wire_simple_adder_2_impl"
    call_args := ["port_", "a", "b"] }

/-- Transcription of `generated_api_1.web.rs` lines 4-7. -/
def P7C55DD6B_wire_simple_adder_1 : WireFunc :=
  { attr := .wasm_bindgen
    name := "P7C55DD6B_wire_simple_adder_1"
    params := [("port_", "MessagePort"), ("a", "i32"), ("b", "i32")]
    callee := "P7C55DD6B_wire_simple_adder_1_impl"
    call_args := ["port_", "a", "b"] }

/-! ## Symbol-prefix rewrite (commands.rs lines 121-126, claim C3)

The cbindgen post-process applies the regex
`([\d\w]+ \*?)([\d\w]+)(\([\d\w\s*,]*\);)` with replacement
`${1}<prefix>${2}${3}` through `Regex::replace_all`.  None of the
character classes contains the fixed character that must follow it
(`[\d\w]` excludes the space, `*` and `(`; the argument class excludes
`)`), so the backtracking search is deterministic and the pattern is
embedded as a direct functional matcher over character lists:
`rewrite_match_at` matches the pattern at the head of the list,
`find_match` finds the leftmost match, and `replace_all` rewrites the
non-overlapping matches left to right, inserting the prefix between
group 1 and group 2. -/

/-- A character of the class `[\d\w\s*,]` (argument characters). -/
def isArgChar (c : Char) : Bool :=
  isWordChar c || c.isWhitespace || c == '*' || c == ','

/-- The three capture groups of one signature match. -/
structure SigMatch where
  g1 : List Char
  g2 : List Char
  g3 : List Char
deriving Repr, DecidableEq

/-- Match `([\d\w]+ \*?)([\d\w]+)(\([\d\w\s*,]*\);)` at the head of `s`;
returns the groups and the remaining input. -/
def rewrite_match_at (s : List Char) : Option (SigMatch × List Char) :=
  let t1 := s.takeWhile isWordChar
  let r1 := s.dropWhile isWordChar
  if t1.isEmpty then none
  else
    match r1 with
    | [] => none
    | c1 :: r2 =>
      if c1 = ' ' then
        let star : List Char :=
          match r2 with
          | c2 :: _ => if c2 = '*' then ['*'] else []
          | [] => []
        let r3 := r2.drop star.length
        let t2 := r3.takeWhile isWordChar
        let r4 := r3.dropWhile isWordChar
        if t2.isEmpty then none
        else
          match r4 with
          | [] => none
          | c4 :: r5 =>
            if c4 = '(' then
              let args := r5.takeWhile isArgChar
              let r6 := r5.dropWhile isArgChar
              match r6 with
              | c6 :: c7 :: rest =>
                if c6 = ')' ∧ c7 = ';' then
                  some ({ g1 := t1 ++ [' '] ++ star, g2 := t2,
                          g3 := '(' :: args ++ [')', ';'] }, rest)
                else none
              | _ => none
            else none
      else none

/-- Leftmost match: the unmatched text before it, the match, the rest. -/
def find_match : List Char → Option (List Char × SigMatch × List Char)
  | [] => none
  | c :: cs =>
    match rewrite_match_at (c :: cs) with
    | some (m, rest) => some ([], m, rest)
    | none =>
      match find_match cs with
      | some (pre, m, rest) => some (c :: pre, m, rest)
      | none => none

/-- `Regex::replace_all` with replacement `${1}<prefix>${2}${3}`, fuelled
by the input length (each match consumes at least one character). -/
def replace_all_aux (pfx : List Char) : Nat → List Char → List Char
  | 0, s => s
  | fuel + 1, s =>
    match find_match s with
    | none => s
    | some (pre, m, rest) =>
      pre ++ m.g1 ++ pfx ++ m.g2 ++ m.g3 ++ replace_all_aux pfx fuel rest

def replace_all (pfx s : List Char) : List Char :=
  replace_all_aux pfx s.length s

/-- The whole cbindgen post-process of the written header (commands.rs
lines 122-126): rewrite, then prepend the `// <prefix>` marker line. -/
def cbindgen_postprocess (pfx generated : String) : String :=
  "// " ++ pfx ++ "\n" ++ String.mk (replace_all pfx.toList generated.toList)

/-- The decomposition that `replace_all` induces on an arbitrary header:
the list of (unmatched text before the match, match) pairs found left to
right, plus the unmatched tail.  It mirrors `replace_all_aux` step for
step, recording each match instead of rewriting it. -/
def match_decomp_aux : Nat → List Char → List (List Char × SigMatch) × List Char
  | 0, s => ([], s)
  | fuel + 1, s =>
    match find_match s with
    | none => ([], s)
    | some (pre, m, rest) =>
      let d := match_decomp_aux fuel rest
      ((pre, m) :: d.1, d.2)

def match_decomp (s : List Char) : List (List Char × SigMatch) × List Char :=
  match_decomp_aux s.length s

/-- Reassemble a decomposition without rewriting: the original header. -/
def recompose_plain (d : List (List Char × SigMatch) × List Char) : List Char :=
  (d.1.map fun pm => pm.1 ++ pm.2.g1 ++ pm.2.g2 ++ pm.2.g3).flatten ++ d.2

/-- Reassemble a decomposition with the prefix inserted between group 1
and the identifier (group 2) of every match: the rewritten header. -/
def recompose_rw (pfx : List Char) (d : List (List Char × SigMatch) × List Char) :
    List Char :=
  (d.1.map fun pm => pm.1 ++ pm.2.g1 ++ pfx ++ pm.2.g2 ++ pm.2.g3).flatten ++ d.2

/-! ## Theorems -/

theorem eval_enum_match_hit (variants : List String) :
    ∀ (start k : Nat), k < variants.length →
      eval_enum_match (enumerateFrom start variants) ((start + k : Nat) : Int)
        = variants[k]? := by
  induction variants with
  | nil => intro start k h; simp at h
  | cons a l ih =>
    intro start k h
    cases k with
    | zero => simp [enumerateFrom, eval_enum_match]
    | succ k =>
      have hk : k < l.length := by simpa using h
      have := ih (start + 1) k hk
      simp only [enumerateFrom, eval_enum_match]
      have hne : ((start + (k + 1) : Nat) : Int) ≠ (start : Int) := by
        push_cast; omega
      rw [if_neg hne]
      have harg : ((start + (k + 1) : Nat) : Int) = ((start + 1 + k : Nat) : Int) := by
        push_cast; omega
      rw [harg, this]
      simp

theorem eval_enum_match_miss (variants : List String) :
    ∀ (start : Nat) (v : Int),
      (v < (start : Int) ∨ (start : Int) + variants.length ≤ v) →
      eval_enum_match (enumerateFrom start variants) v = none := by
  induction variants with
  | nil => intro start v _; simp [enumerateFrom, eval_enum_match]
  | cons a l ih =>
    intro start v h
    simp only [enumerateFrom, eval_enum_match]
    have hne : v ≠ (start : Int) := by
      rcases h with h | h
      · omega
      · simp only [List.length_cons] at h; push_cast at h; omega
    rw [if_neg hne]
    apply ih (start + 1)
    rcases h with h | h
    · left; push_cast; omega
    · right; simp only [List.length_cons] at h; push_cast at h ⊢; omega

/-- Claim C1: for a primitive-enum delegate with N variants, the generated
native-target decode body maps each wire integer in [0, N) to the variant of
that index in declaration order, and every wire integer outside [0, N) hits
the catch-all `unreachable!` arm (a fatal panic, modelled as `none`), never
clamping to a variant. -/
theorem C1_primitive_enum_decode (enu : IrEnum) (v : Int) :
    (wire2api_body (.PrimitiveEnum enu)).io = some (primitive_enum_match_src enu)
    ∧ (0 ≤ v → v < (enu.variants.length : Int) →
        eval_enum_match (enum_match_arms enu.variants) v = enu.variants[v.toNat]?)
    ∧ ((v < 0 ∨ (enu.variants.length : Int) ≤ v) →
        eval_enum_match (enum_match_arms enu.variants) v = none) := by
  refine ⟨rfl, ?_, ?_⟩
  · intro h0 hlt
    have hk : v.toNat < enu.variants.length := by omega
    have h := eval_enum_match_hit enu.variants 0 v.toNat hk
    have hv : ((0 + v.toNat : Nat) : Int) = v := by push_cast; omega
    rw [hv] at h
    exact h
  · intro h
    apply eval_enum_match_miss
    rcases h with h | h
    · left; push_cast; omega
    · right; push_cast; omega

theorem C1_primitive_enum_decode_witness :
    eval_enum_match (enum_match_arms ["Alpha", "Beta", "Gamma"]) 1 = some "Beta"
    ∧ eval_enum_match (enum_match_arms ["Alpha", "Beta", "Gamma"]) 5 = none := by
  constructor
  · have h := (C1_primitive_enum_decode ⟨"E", none, ["Alpha", "Beta", "Gamma"]⟩ 1).2.1
      (by decide) (by decide)
    simpa using h
  · have h := (C1_primitive_enum_decode ⟨"E", none, ["Alpha", "Beta", "Gamma"]⟩ 5).2.2
      (Or.inr (by decide))
    simpa using h

/-- Claim C2: for every non-Duration Time delegate the generated decode
computes seconds by truncating division of the wire integer by the
sub-second unit (10^6 on the native target, 10^3 on the script-engine
target) and nanoseconds as the Euclidean remainder scaled by 10^9 / unit,
so the nanosecond component is non-negative (and below 10^9) even for
negative inputs; concretely, v = 3_496_567_123 on the native target decodes
to seconds 3496 and nanoseconds 567_123_000. -/
theorem C2_time_decode (v : Int) :
    (time_decode_io v).1 = Int.tdiv v 1000000
    ∧ (time_decode_io v).2 = Int.emod v 1000000 * ((10 ^ 9 : Int) / 1000000)
    ∧ 0 ≤ (time_decode_io v).2
    ∧ (time_decode_io v).2 < 10 ^ 9
    ∧ (time_decode_io (-v)).1 = -((time_decode_io v).1)
    ∧ (time_decode_wasm v).1 = Int.tdiv v 1000
    ∧ (time_decode_wasm v).2 = Int.emod v 1000 * ((10 ^ 9 : Int) / 1000)
    ∧ 0 ≤ (time_decode_wasm v).2
    ∧ (time_decode_wasm v).2 < 10 ^ 9
    ∧ time_decode_io 3496567123 = (3496, 567123000)
    ∧ (∀ t : IrTypeTime, t ≠ .Duration → ∃ a b : String,
        (wire2api_body (.Time t)).io = some (a ++ codegen_io_src ++ b)
        ∧ (wire2api_body (.Time t)).wasm = some (a ++ codegen_wasm_src ++ b)) := by
  have hio_nonneg : 0 ≤ Int.emod v 1000000 :=
    Int.emod_nonneg v (by norm_num)
  have hio_lt : Int.emod v 1000000 < 1000000 :=
    Int.emod_lt_of_pos v (by norm_num)
  have hwasm_nonneg : 0 ≤ Int.emod v 1000 :=
    Int.emod_nonneg v (by norm_num)
  have hwasm_lt : Int.emod v 1000 < 1000 :=
    Int.emod_lt_of_pos v (by norm_num)
  refine ⟨rfl, by norm_num [time_decode_io], ?_, ?_, ?_, rfl,
    by norm_num [time_decode_wasm], ?_, ?_, by decide, ?_⟩
  · simpa [time_decode_io] using by positivity
  · simp only [time_decode_io]; omega
  · simp [time_decode_io, Int.neg_tdiv]
  · simpa [time_decode_wasm] using by positivity
  · simp only [time_decode_wasm]; omega
  · intro t ht
    refine ⟨"\n                ",
      "\n                " ++ codegen_conversion_src t ++ "\n                ", ?_, ?_⟩
    · simp [wire2api_body, ht, String.append_assoc]
    · simp [wire2api_body, ht, String.append_assoc]

theorem utf8_lossy_of_strict :
    ∀ (fuel : Nat) (l s : List Nat),
      utf8_strict_aux fuel l = some s → utf8_lossy_aux fuel l = s := by
  intro fuel
  induction fuel with
  | zero =>
    intro l s h
    cases l with
    | nil =>
      simp only [utf8_strict_aux, Option.some_inj] at h
      simp [utf8_lossy_aux, ← h]
    | cons b rest => simp [utf8_strict_aux] at h
  | succ fuel ih =>
    intro l s h
    cases l with
    | nil =>
      simp only [utf8_strict_aux, Option.some_inj] at h
      simp [utf8_lossy_aux, ← h]
    | cons b rest =>
      simp only [utf8_strict_aux] at h
      cases hh : utf8_head b rest with
      | none => rw [hh] at h; simp at h
      | some ur =>
        obtain ⟨u, rem⟩ := ur
        rw [hh] at h
        dsimp only at h
        cases hs : utf8_strict_aux fuel rem with
        | none => rw [hs] at h; simp at h
        | some s2 =>
          rw [hs] at h
          simp only [Option.map_some', Option.some_inj] at h
          simp only [utf8_lossy_aux, hh, ← h]
          rw [ih rem s2 hs]

/-- Claim C8: the native-target String decode body uses the lossy UTF-8
conversion, whose semantics are total (every byte sequence, valid or not,
decodes successfully, agreeing with strict decoding on valid input); the
script-engine body is the wire value itself. -/
theorem C8_string_decode :
    (wire2api_body .String).io
      = some "let vec: Vec<u8> = self.wire2api(); String::from_utf8_lossy(&vec).into_owned()"
    ∧ (wire2api_body .String).wasm = some "self"
    ∧ (∀ bytes : List Nat, (string_decode_io bytes).isSome = true)
    ∧ utf8_decode_strict [0xFF] = none
    ∧ string_decode_io [0xFF] = some [0xFFFD]
    ∧ (∀ bytes s : List Nat,
        utf8_decode_strict bytes = some s → string_decode_io bytes = some s) := by
  refine ⟨rfl, rfl, fun _ => rfl, by decide, by decide, ?_⟩
  intro bytes s h
  simp only [string_decode_io, Option.some_inj]
  exact utf8_lossy_of_strict bytes.length bytes s h

theorem C8_string_decode_witness :
    string_decode_io [0x41, 0xE2, 0x82, 0xAC] = some [0x41, 0x20AC] :=
  (C8_string_decode).2.2.2.2.2 [0x41, 0xE2, 0x82, 0xAC] [0x41, 0x20AC] (by decide)

/-- Claim C10: for every delegate type the accumulator returned by
`allocate_funcs` has empty wasm and shared slots, and its io slot is
occupied exactly when the delegate is StringList. -/
theorem C10_allocate_funcs (d : IrTypeDelegate) (block_index : Nat) :
    (allocate_funcs d block_index).wasm = none
    ∧ (allocate_funcs d block_index).shared = none
    ∧ ((allocate_funcs d block_index).io.isSome = true ↔ d = .StringList) := by
  cases d <;> simp [allocate_funcs, Acc.empty]

theorem C2_time_decode_witness :
    ∃ a b : String,
      (wire2api_body (.Time .Naive)).io = some (a ++ codegen_io_src ++ b)
      ∧ (wire2api_body (.Time .Naive)).wasm = some (a ++ codegen_wasm_src ++ b) := by
  obtain ⟨-, -, -, -, -, -, -, -, -, -, h⟩ := C2_time_decode 0
  exact h .Naive (by decide)

/-! ### Helper lemmas about `join_str` -/

theorem join_str_cons_cons (sep x y : String) (l : List String) :
    join_str sep (x :: y :: l) = x ++ sep ++ join_str sep (y :: l) := rfl

theorem map_eraseIdx (f : α → β) :
    ∀ (l : List α) (k : Nat), (l.eraseIdx k).map f = (l.map f).eraseIdx k := by
  intro l
  induction l with
  | nil => intro k; simp
  | cons a tl ih =>
    intro k
    cases k with
    | zero => simp [List.eraseIdx]
    | succ k => simp [List.eraseIdx, ih]

theorem join_str_cons_length (sep a : String) (m : List String) :
    (join_str sep (a :: m)).length
      = a.length + (if m = [] then 0 else sep.length + (join_str sep m).length) := by
  cases m with
  | nil => simp [join_str]
  | cons b r => simp [join_str_cons_cons, String.length_append]; omega

theorem join_str_eraseIdx_length_lt (sep : String) (hsep : 1 ≤ sep.length) :
    ∀ (l : List String), (∀ x ∈ l, 1 ≤ x.length) → ∀ (k : Nat), k < l.length →
      (join_str sep (l.eraseIdx k)).length < (join_str sep l).length := by
  intro l
  induction l with
  | nil => intro _ k h; simp at h
  | cons a tl ih =>
    intro hmem k hk
    cases k with
    | zero =>
      simp only [List.eraseIdx]
      rw [join_str_cons_length]
      have ha : 1 ≤ a.length := hmem a (by simp)
      by_cases htl : tl = []
      · subst htl; simp [join_str]; omega
      · simp only [htl, if_false]
        omega
    | succ k =>
      have hk2 : k < tl.length := by simpa using hk
      have htl : tl ≠ [] := by
        intro h; rw [h] at hk2; simp at hk2
      have hih := ih (fun x hx => hmem x (List.mem_cons_of_mem a hx)) k hk2
      simp only [List.eraseIdx]
      rw [join_str_cons_length, join_str_cons_length]
      simp only [htl, if_false]
      by_cases herase : tl.eraseIdx k = []
      · simp only [herase, if_true]
        omega
      · simp only [herase, if_false]
        omega

theorem join_str_mem_split (sep : String) :
    ∀ (l : List String) (x : String), x ∈ l →
      ∃ a b : String, join_str sep l = a ++ x ++ b := by
  intro l
  induction l with
  | nil => intro x hx; simp at hx
  | cons h tl ih =>
    intro x hx
    rcases List.mem_cons.mp hx with rfl | hmem
    · cases tl with
      | nil => exact ⟨"", "", by simp [join_str]⟩
      | cons b tl2 =>
        exact ⟨"", sep ++ join_str sep (b :: tl2), by
          simp [join_str_cons_cons, String.append_assoc]⟩
    · cases tl with
      | nil => simp at hmem
      | cons b tl2 =>
        obtain ⟨a, c, hac⟩ := ih x hmem
        exact ⟨h ++ sep ++ a, c, by
          simp [join_str_cons_cons, hac, String.append_assoc]⟩

theorem isEmpty_false_of_ne (s : String) (h : s ≠ "") : s.isEmpty = false := by
  rw [Bool.eq_false_iff]
  intro hc
  exact h ((String.isEmpty_iff s).mp hc)

theorem generate_dummy_single_eq (cfg : Opts) (names : List String) (i : Nat) :
    generate_dummy cfg [cfg] names i
      = get_dummy_func "" (apply_unique_pfx cfg.unique_id names) cfg.unique_id := rfl

/-- Claim C5: for a single-module generation `generate_dummy` emits exactly
one static int64_t function named `<prefix>dummy_method_to_enforce_bundling`
whose body holds one address-XOR line per input name (wire-matching names
get the module prefix prepended), every listed name occurs in the emitted
text, and removing any single name changes the emitted text. -/
theorem C5_generate_dummy_single (cfg : Opts) (names : List String) (i k : Nat) :
    (∃ rest : String,
        generate_dummy cfg [cfg] names i
          = "static int64_t " ++ cfg.unique_id
              ++ "dummy_method_to_enforce_bundling(void) \x7b\n    int64_t dummy_var = 0;\n"
              ++ rest)
    ∧ ((apply_unique_pfx cfg.unique_id names).map get_dummy_var_line).length = names.length
    ∧ (∀ j : Nat, ((apply_unique_pfx cfg.unique_id names).map get_dummy_var_line)[j]?
        = (names[j]?).map (fun n =>
            get_dummy_var_line (if wire_is_match n.toList then cfg.unique_id ++ n else n)))
    ∧ (∀ n ∈ names, ∃ a b : String, generate_dummy cfg [cfg] names i = a ++ n ++ b)
    ∧ (k < names.length →
        generate_dummy cfg [cfg] (names.eraseIdx k) i
          ≠ generate_dummy cfg [cfg] names i) := by
  have hsig : get_dummy_signature "" = "dummy_method_to_enforce_bundling" := rfl
  refine ⟨?_, ?_, ?_, ?_, ?_⟩
  · refine ⟨get_dummy_var (apply_unique_pfx cfg.unique_id names)
      ++ "\n    return dummy_var;\n\x7d\n", ?_⟩
    rw [generate_dummy_single_eq, get_dummy_func, hsig]
    simp [String.append_assoc]
  · simp [apply_unique_pfx]
  · intro j
    simp [apply_unique_pfx, List.getElem?_map, Option.map_map]
    rfl
  · intro n hn
    have hvar : ∃ a b : String,
        get_dummy_var (apply_unique_pfx cfg.unique_id names) = a ++ n ++ b := by
      by_cases hw : wire_is_match n.toList
      · have hmem0 := List.mem_map_of_mem
          (fun e => if wire_is_match e.toList then cfg.unique_id ++ e else e) hn
        simp only [hw, if_true] at hmem0
        have hline := List.mem_map_of_mem get_dummy_var_line hmem0
        obtain ⟨a, b, hab⟩ := join_str_mem_split "\n" _ _ hline
        refine ⟨a ++ "    dummy_var ^= ((int64_t) (void*) " ++ cfg.unique_id,
          ");" ++ b, ?_⟩
        rw [get_dummy_var]
        simp only [apply_unique_pfx]
        rw [hab, get_dummy_var_line]
        simp [String.append_assoc]
      · have hmem0 := List.mem_map_of_mem
          (fun e => if wire_is_match e.toList then cfg.unique_id ++ e else e) hn
        simp only [hw, if_false, Bool.false_eq_true] at hmem0
        have hline := List.mem_map_of_mem get_dummy_var_line hmem0
        obtain ⟨a, b, hab⟩ := join_str_mem_split "\n" _ _ hline
        refine ⟨a ++ "    dummy_var ^= ((int64_t) (void*) ", ");" ++ b, ?_⟩
        rw [get_dummy_var]
        simp only [apply_unique_pfx]
        rw [hab, get_dummy_var_line]
        simp [String.append_assoc]
    obtain ⟨a, b, hab⟩ := hvar
    refine ⟨"static int64_t " ++ cfg.unique_id
        ++ "dummy_method_to_enforce_bundling(void) \x7b\n    int64_t dummy_var = 0;\n" ++ a,
      b ++ "\n    return dummy_var;\n\x7d\n", ?_⟩
    rw [generate_dummy_single_eq, get_dummy_func, hsig, hab]
    simp [String.append_assoc]
  · intro hklen heq
    rw [generate_dummy_single_eq, generate_dummy_single_eq] at heq
    have hlen := congrArg String.length heq
    rw [get_dummy_func, get_dummy_func, get_dummy_var, get_dummy_var] at hlen
    simp only [apply_unique_pfx] at hlen
    rw [map_eraseIdx (fun e => if wire_is_match e.toList then cfg.unique_id ++ e else e),
      map_eraseIdx get_dummy_var_line] at hlen
    simp only [String.length_append] at hlen
    have hlt := join_str_eraseIdx_length_lt "\n" (by decide)
      ((names.map fun e => if wire_is_match e.toList then cfg.unique_id ++ e else e).map
        get_dummy_var_line)
      (by
        intro x hx
        obtain ⟨y, -, rfl⟩ := List.mem_map.mp hx
        rw [get_dummy_var_line]
        simp only [String.length_append]
        have h1 : 1 ≤ ("    dummy_var ^= ((int64_t) (void*) " : String).length := by decide
        omega)
      k (by simpa using hklen)
    omega

theorem C5_generate_dummy_single_witness :
    generate_dummy ⟨"Api", ["a.h"], 0, "P_"⟩ [⟨"Api", ["a.h"], 0, "P_"⟩] ["other"] 0
      ≠ generate_dummy ⟨"Api", ["a.h"], 0, "P_"⟩ [⟨"Api", ["a.h"], 0, "P_"⟩]
          ["wire_f", "other"] 0
    ∧ ∃ a b : String,
        generate_dummy ⟨"Api", ["a.h"], 0, "P_"⟩ [⟨"Api", ["a.h"], 0, "P_"⟩]
            ["wire_f", "other"] 0
          = a ++ "wire_f" ++ b := by
  constructor
  · have h := (C5_generate_dummy_single ⟨"Api", ["a.h"], 0, "P_"⟩
      ["wire_f", "other"] 0 0).2.2.2.2 (by decide)
    simpa using h
  · exact (C5_generate_dummy_single ⟨"Api", ["a.h"], 0, "P_"⟩
      ["wire_f", "other"] 0 0).2.2.2.1 "wire_f" (by simp)

/-- Claim C4: with more than one config, a non-root module's output is
exactly its own per-module anchor function, named with the prefix plus
`dummy_method_to_enforce_bundling_<its class name>`; the root module (block
index 0) additionally emits one `#include` line per config after the first
— the relative directory from root's C output path to that module's output
directory joined with that module's file name — followed by an umbrella
anchor which XORs the anchor signatures of all modules, the root's own
included. -/
theorem C4_generate_dummy_multi (cfg : Opts) (cfgs : List Opts)
    (names : List String) (i : Nat) (hM : 1 < cfgs.length) :
    (cfg.block_index ≠ 0 →
        generate_dummy cfg cfgs names i
          = get_dummy_func cfg.class_name (apply_unique_pfx cfg.unique_id names)
              cfg.unique_id
        ∧ (cfg.class_name ≠ "" → ∃ rest : String,
            generate_dummy cfg cfgs names i
              = "static int64_t " ++ cfg.unique_id ++ "dummy_method_to_enforce_bundling_"
                  ++ cfg.class_name
                  ++ "(void) \x7b\n    int64_t dummy_var = 0;\n" ++ rest))
    ∧ (cfg.block_index = 0 →
        generate_dummy cfg cfgs names i
          = get_dummy_func cfg.class_name (apply_unique_pfx cfg.unique_id names)
                cfg.unique_id
              ++ "\n" ++ join_str "\n" ((cfgs.drop 1).map (include_line cfg i))
              ++ "\n" ++ get_dummy_func ""
                    (cfgs.map fun e => get_dummy_signature e.class_name) cfg.unique_id
        ∧ ((cfgs.drop 1).map (include_line cfg i)).length = cfgs.length - 1
        ∧ (cfgs.map fun e => get_dummy_signature e.class_name).length = cfgs.length
        ∧ (∀ j : Nat, ((cfgs.drop 1).map (include_line cfg i))[j]?
            = (cfgs[j + 1]?).map (include_line cfg i))
        ∧ (∀ j : Nat,
            ((cfgs.map fun e => get_dummy_signature e.class_name).map
                get_dummy_var_line)[j]?
              = (cfgs[j]?).map fun e => get_dummy_var_line (get_dummy_signature e.class_name)))
    ∧ (∀ e : Opts, include_line cfg i e
        = "#include \"" ++
            path_join
              (get_relative_path_to (cfg.c_output_path.getD i "")
                (directory_name_str (e.c_output_path.getD i "")))
              (file_name_str (e.c_output_path.getD i "")) ++ "\"") := by
  refine ⟨?_, ?_, fun e => rfl⟩
  · intro hbi
    constructor
    · rw [generate_dummy]
      simp only [if_pos hM, if_neg hbi]
    · intro hcn
      refine ⟨get_dummy_var (apply_unique_pfx cfg.unique_id names)
        ++ "\n    return dummy_var;\n\x7d\n", ?_⟩
      rw [generate_dummy]
      simp only [if_pos hM, if_neg hbi]
      rw [get_dummy_func, get_dummy_signature, isEmpty_false_of_ne cfg.class_name hcn]
      simp [String.append_assoc]
  · intro hbi
    refine ⟨?_, by simp, by simp, ?_, ?_⟩
    · rw [generate_dummy]
      simp only [if_pos hM, if_pos hbi]
    · intro j
      simp [List.getElem?_map, List.getElem?_drop, Nat.add_comm]
    · intro j
      simp [List.getElem?_map, Option.map_map]
      rfl

theorem C4_generate_dummy_multi_witness :
    generate_dummy ⟨"ApiB", ["sub/b.h"], 1, "Q_"⟩
        [⟨"ApiA", ["out/a.h"], 0, "P_"⟩, ⟨"ApiB", ["sub/b.h"], 1, "Q_"⟩] ["wire_f"] 0
      = get_dummy_func "ApiB" (apply_unique_pfx "Q_" ["wire_f"]) "Q_"
    ∧ (([(⟨"ApiA", ["out/a.h"], 0, "P_"⟩ : Opts), ⟨"ApiB", ["sub/b.h"], 1, "Q_"⟩].drop 1).map
        (include_line ⟨"ApiA", ["out/a.h"], 0, "P_"⟩ 0)).length = 1 := by
  constructor
  · exact ((C4_generate_dummy_multi ⟨"ApiB", ["sub/b.h"], 1, "Q_"⟩
      [⟨"ApiA", ["out/a.h"], 0, "P_"⟩, ⟨"ApiB", ["sub/b.h"], 1, "Q_"⟩] ["wire_f"] 0
      (by decide)).1 (by decide)).1
  · have h := ((C4_generate_dummy_multi ⟨"ApiA", ["out/a.h"], 0, "P_"⟩
      [⟨"ApiA", ["out/a.h"], 0, "P_"⟩, ⟨"ApiB", ["sub/b.h"], 1, "Q_"⟩] ["wire_f"] 0
      (by decide)).2.1 rfl).2.1
    exact h.trans rfl

/-! ### Theorems for C6, C7, C9 -/

theorem package_check_ok_iff (found : Option SemVer) (req : SemVer → Bool)
    (what : String) :
    package_check found req what = Except.ok ()
      ↔ ∃ v, found = some v ∧ req v = true := by
  cases found with
  | none => simp [package_check]
  | some v => by_cases hr : req v <;> simp [package_check, hr]

theorem except_seq_ok_iff (a b : Except CommandError Unit) :
    (do a; b) = Except.ok () ↔ a = Except.ok () ∧ b = Except.ok () := by
  cases a with
  | error e => simp [Bind.bind, Except.bind]
  | ok x => cases x; simp [Bind.bind, Except.bind]

/-- Claim C6: the binding-generator invocation yields success exactly on a
zero exit status; on non-zero exit it yields the distinct `FfigenLlvm`
error exactly when stderr or stdout contains the recognised substring, and
otherwise a generic error whose message embeds both captured streams. -/
theorem C6_ffigen_outcome (success : Bool) (stderr stdout : String) :
    (ffigen_outcome success stderr stdout = Except.ok () ↔ success = true)
    ∧ (ffigen_outcome success stderr stdout = Except.error CommandError.FfigenLlvm
        ↔ success = false
          ∧ (str_contains stderr ffigen_pat || str_contains stdout ffigen_pat) = true)
    ∧ (success = false →
        (str_contains stderr ffigen_pat || str_contains stdout ffigen_pat) = false →
        ffigen_outcome success stderr stdout
            = Except.error (CommandError.StringError
                ("ffigen failed:\nstderr: " ++ stderr ++ "\nstdout: " ++ stdout))
          ∧ (∃ a b : String,
              "ffigen failed:\nstderr: " ++ stderr ++ "\nstdout: " ++ stdout
                = a ++ stderr ++ b)
          ∧ (∃ c d : String,
              "ffigen failed:\nstderr: " ++ stderr ++ "\nstdout: " ++ stdout
                = c ++ stdout ++ d)) := by
  refine ⟨?_, ?_, ?_⟩
  · cases success with
    | true => simp [ffigen_outcome]
    | false =>
      by_cases hc : (str_contains stderr ffigen_pat || str_contains stdout ffigen_pat) = true
      · simp [ffigen_outcome, hc]
      · simp only [Bool.not_eq_true] at hc
        simp [ffigen_outcome, hc]
  · cases success with
    | true => simp [ffigen_outcome]
    | false =>
      by_cases hc : (str_contains stderr ffigen_pat || str_contains stdout ffigen_pat) = true
      · simp [ffigen_outcome, hc]
      · simp only [Bool.not_eq_true] at hc
        simp [ffigen_outcome, hc]
  · intro hs hc
    subst hs
    refine ⟨by simp [ffigen_outcome, hc], ?_, ?_⟩
    · exact ⟨"ffigen failed:\nstderr: ", "\nstdout: " ++ stdout, by
        simp [String.append_assoc]⟩
    · exact ⟨"ffigen failed:\nstderr: " ++ stderr ++ "\nstdout: ", "", by
        simp [String.append_assoc]⟩

theorem C6_ffigen_outcome_witness :
    ffigen_outcome false "boom" "out"
      = Except.error (CommandError.StringError
          ("ffigen failed:\nstderr: " ++ "boom" ++ "\nstdout: " ++ "out")) :=
  ((C6_ffigen_outcome false "boom" "out").2.2 rfl (by decide)).1

/-- Claim C7: `ensure_tools_available` returns the distinct missing-exe
error whenever the toolchain is unavailable (regardless of the skip flag);
with the toolchain available and the skip flag set it succeeds; with the
skip flag clear it succeeds exactly when the ffi package is declared and
installed within [2.0.1, 3.0.0) and the ffigen package is declared and
installed within [6.0.1, 8.0.0). -/
theorem C7_ensure_tools_available (repo : DartRepository) (skip : Bool) :
    (repo.toolchain_available = false →
        ensure_tools_available repo skip
          = Except.error (CommandError.MissingExe repo.toolchain))
    ∧ (repo.toolchain_available = true → skip = true →
        ensure_tools_available repo skip = Except.ok ())
    ∧ (repo.toolchain_available = true → skip = false →
        (ensure_tools_available repo skip = Except.ok ()
          ↔ package_ok repo.ffi_specified ffi_requirement_matches
            ∧ package_ok repo.ffi_installed ffi_requirement_matches
            ∧ package_ok repo.ffigen_specified ffigen_requirement_matches
            ∧ package_ok repo.ffigen_installed ffigen_requirement_matches)) := by
  refine ⟨?_, ?_, ?_⟩
  · intro h
    simp [ensure_tools_available, h]
  · intro h hs
    simp [ensure_tools_available, h, hs]
  · intro h hs
    simp only [ensure_tools_available, h, hs, Bool.not_true, Bool.false_eq_true,
      if_false]
    rw [except_seq_ok_iff, except_seq_ok_iff, except_seq_ok_iff,
      package_check_ok_iff, package_check_ok_iff, package_check_ok_iff,
      package_check_ok_iff]
    simp [package_ok]

theorem C7_ensure_tools_available_witness :
    ensure_tools_available
        ⟨"dart", true, some ⟨2, 0, 1⟩, some ⟨2, 1, 0⟩, some ⟨7, 0, 0⟩, some ⟨6, 0, 1⟩⟩
        false
      = Except.ok ()
    ∧ ensure_tools_available ⟨"flutter", false, none, none, none, none⟩ true
        = Except.error (CommandError.MissingExe "flutter") := by
  constructor
  · exact ((C7_ensure_tools_available _ false).2.2 rfl rfl).mpr
      ⟨⟨_, rfl, by decide⟩, ⟨_, rfl, by decide⟩, ⟨_, rfl, by decide⟩,
        ⟨_, rfl, by decide⟩⟩
  · exact (C7_ensure_tools_available _ true).1 rfl

/-- Claim C9: the natively-compiled target emits the exported C-ABI
function `P7C55DD6B_wire_<fn>` taking an i64 port first and the declared
arguments after; the script-engine target emits a function of the same
naming scheme taking a MessagePort first and the same declared arguments;
both bodies forward all parameters, in order, to the `_impl` function. -/
theorem C9_wire_functions :
    P7C55DD6B_wire_simple_adder_2.name = "P7C55DD6B_" ++ "wire_" ++ "simple_adder_2"
    ∧ P7C55DD6B_wire_simple_adder_2.attr = .no_mangle_extern_c
    ∧ (P7C55DD6B_wire_simple_adder_2.params.head?).map Prod.snd = some "i64"
    ∧ P7C55DD6B_wire_simple_adder_2.callee
        = P7C55DD6B_wire_simple_adder_2.name ++ "_impl"
    ∧ P7C55DD6B_wire_simple_adder_2.call_args
        = P7C55DD6B_wire_simple_adder_2.params.map Prod.fst
    ∧ P7C55DD6B_wire_simple_adder_1.name = "P7C55DD6B_" ++ "wire_" ++ "simple_adder_1"
    ∧ P7C55DD6B_wire_simple_adder_1.attr = .wasm_bindgen
    ∧ (P7C55DD6B_wire_simple_adder_1.params.head?).map Prod.snd = some "MessagePort"
    ∧ P7C55DD6B_wire_simple_adder_1.callee
        = P7C55DD6B_wire_simple_adder_1.name ++ "_impl"
    ∧ P7C55DD6B_wire_simple_adder_1.call_args
        = P7C55DD6B_wire_simple_adder_1.params.map Prod.fst
    ∧ P7C55DD6B_wire_simple_adder_2.params.drop 1 = [("a", "i32"), ("b", "i32")]
    ∧ P7C55DD6B_wire_simple_adder_1.params.drop 1 = [("a", "i32"), ("b", "i32")] := by
  refine ⟨rfl, rfl, rfl, by decide, rfl, rfl, rfl, rfl, by decide, rfl, rfl, rfl⟩

/-! ### Theorems for C3 -/

theorem takeWhile_append_not (p : Char → Bool) :
    ∀ (l : List Char) (c : Char) (r : List Char),
      (∀ x ∈ l, p x = true) → p c = false →
      (l ++ c :: r).takeWhile p = l ∧ (l ++ c :: r).dropWhile p = c :: r := by
  intro l
  induction l with
  | nil =>
    intro c r _ hc
    simp [List.takeWhile, List.dropWhile, hc]
  | cons a tl ih =>
    intro c r hmem hc
    have ha : p a = true := hmem a (by simp)
    have htl := ih c r (fun x hx => hmem x (List.mem_cons_of_mem a hx)) hc
    simp [List.takeWhile, List.dropWhile, ha, htl.1, htl.2]

theorem replace_all_aux_nil (pfx : List Char) :
    ∀ fuel : Nat, replace_all_aux pfx fuel [] = [] := by
  intro fuel
  cases fuel with
  | zero => rfl
  | succ f => simp [replace_all_aux, find_match]


/-- Soundness of the matcher: a successful match's groups reassemble the
consumed input, and the matched identifier (group 2) is non-empty. -/
theorem rewrite_match_at_sound (s : List Char) (m : SigMatch) (rest : List Char)
    (h : rewrite_match_at s = some (m, rest)) :
    s = m.g1 ++ m.g2 ++ m.g3 ++ rest ∧ m.g2 ≠ [] := by
  unfold rewrite_match_at at h
  by_cases he1 : (s.takeWhile isWordChar).isEmpty = true
  · rw [if_pos he1] at h; exact absurd h (by simp)
  · rw [if_neg he1] at h
    cases hr1 : s.dropWhile isWordChar with
    | nil => rw [hr1] at h; exact absurd h (by simp)
    | cons c1 r2 =>
      rw [hr1] at h
      dsimp only at h
      by_cases hc1 : c1 = ' '
      · rw [if_pos hc1] at h
        cases hr2 : r2 with
        | nil =>
          rw [hr2] at h
          dsimp only at h
          exact absurd h (by simp)
        | cons c2 t =>
          rw [hr2] at h
          dsimp only at h
          by_cases hc2 : c2 = '*'
          · subst hc2
            rw [if_pos rfl] at h
            simp only [List.length_cons, List.length_nil, List.drop_succ_cons,
              List.drop_zero] at h
            by_cases he2 : (List.takeWhile isWordChar t).isEmpty = true
            · rw [if_pos he2] at h; exact absurd h (by simp)
            · rw [if_neg he2] at h
              cases hr4 : List.dropWhile isWordChar t with
              | nil => rw [hr4] at h; exact absurd h (by simp)
              | cons c4 r5 =>
                rw [hr4] at h
                dsimp only at h
                by_cases hc4 : c4 = '('
                · rw [if_pos hc4] at h
                  cases hr6 : List.dropWhile isArgChar r5 with
                  | nil => rw [hr6] at h; exact absurd h (by simp)
                  | cons c6 r7 =>
                    cases r7 with
                    | nil => rw [hr6] at h; dsimp only at h; exact absurd h (by simp)
                    | cons c7 rest2 =>
                      rw [hr6] at h
                      dsimp only at h
                      by_cases hc67 : c6 = ')' ∧ c7 = ';'
                      · rw [if_pos hc67] at h
                        simp only [Option.some_inj, Prod.mk.injEq] at h
                        obtain ⟨hm, hrest⟩ := h
                        subst hrest
                        subst hm
                        dsimp only
                        have hs_eq : s = List.takeWhile isWordChar s ++ ' ' :: r2 := by
                          conv_lhs => rw [← List.takeWhile_append_dropWhile isWordChar s]
                          rw [hr1, hc1]
                        have hr3_eq : t = List.takeWhile isWordChar t ++ '(' :: r5 := by
                          conv_lhs => rw [← List.takeWhile_append_dropWhile isWordChar t]
                          rw [hr4, hc4]
                        have hr5_eq : r5 = List.takeWhile isArgChar r5 ++ ')' :: ';' :: rest2 := by
                          conv_lhs => rw [← List.takeWhile_append_dropWhile isArgChar r5]
                          rw [hr6, hc67.1, hc67.2]
                        constructor
                        · conv_lhs => rw [hs_eq]
                          conv_lhs => rw [hr2]
                          conv_lhs => rw [hr3_eq]
                          conv_lhs => rw [hr5_eq]
                          simp [List.append_assoc]
                        · intro hnil
                          exact he2 (by rw [hnil]; rfl)
                      · rw [if_neg hc67] at h; exact absurd h (by simp)
                · rw [if_neg hc4] at h; exact absurd h (by simp)
          · rw [if_neg hc2] at h
            simp only [List.length_nil, List.drop_zero] at h
            by_cases he2 : (List.takeWhile isWordChar (c2 :: t)).isEmpty = true
            · rw [if_pos he2] at h; exact absurd h (by simp)
            · rw [if_neg he2] at h
              cases hr4 : List.dropWhile isWordChar (c2 :: t) with
              | nil => rw [hr4] at h; exact absurd h (by simp)
              | cons c4 r5 =>
                rw [hr4] at h
                dsimp only at h
                by_cases hc4 : c4 = '('
                · rw [if_pos hc4] at h
                  cases hr6 : List.dropWhile isArgChar r5 with
                  | nil => rw [hr6] at h; exact absurd h (by simp)
                  | cons c6 r7 =>
                    cases r7 with
                    | nil => rw [hr6] at h; dsimp only at h; exact absurd h (by simp)
                    | cons c7 rest2 =>
                      rw [hr6] at h
                      dsimp only at h
                      by_cases hc67 : c6 = ')' ∧ c7 = ';'
                      · rw [if_pos hc67] at h
                        simp only [Option.some_inj, Prod.mk.injEq] at h
                        obtain ⟨hm, hrest⟩ := h
                        subst hrest
                        subst hm
                        dsimp only
                        have hs_eq : s = List.takeWhile isWordChar s ++ ' ' :: r2 := by
                          conv_lhs => rw [← List.takeWhile_append_dropWhile isWordChar s]
                          rw [hr1, hc1]
                        have hr3_eq : (c2 :: t) = List.takeWhile isWordChar (c2 :: t) ++ '(' :: r5 := by
                          conv_lhs => rw [← List.takeWhile_append_dropWhile isWordChar (c2 :: t)]
                          rw [hr4, hc4]
                        have hr5_eq : r5 = List.takeWhile isArgChar r5 ++ ')' :: ';' :: rest2 := by
                          conv_lhs => rw [← List.takeWhile_append_dropWhile isArgChar r5]
                          rw [hr6, hc67.1, hc67.2]
                        constructor
                        · conv_lhs => rw [hs_eq]
                          conv_lhs => rw [hr2]
                          conv_lhs => rw [hr3_eq]
                          conv_lhs => rw [hr5_eq]
                          simp [List.append_assoc]
                        · intro hnil
                          exact he2 (by rw [hnil]; rfl)
                      · rw [if_neg hc67] at h; exact absurd h (by simp)
                · rw [if_neg hc4] at h; exact absurd h (by simp)
      · rw [if_neg hc1] at h
        exact absurd h (by simp)

/-- Soundness of the leftmost-match search. -/
theorem find_match_sound :
    ∀ (s pre : List Char) (m : SigMatch) (rest : List Char),
      find_match s = some (pre, m, rest) →
      s = pre ++ m.g1 ++ m.g2 ++ m.g3 ++ rest ∧ m.g2 ≠ [] := by
  intro s
  induction s with
  | nil => intro pre m rest h; simp [find_match] at h
  | cons c cs ih =>
    intro pre m rest h
    simp only [find_match] at h
    cases hma : rewrite_match_at (c :: cs) with
    | some mr =>
      obtain ⟨m0, rest0⟩ := mr
      rw [hma] at h
      dsimp only at h
      simp only [Option.some_inj, Prod.mk.injEq] at h
      obtain ⟨rfl, rfl, rfl⟩ := h
      have hs := rewrite_match_at_sound (c :: cs) m0 rest0 hma
      exact ⟨by simpa using hs.1, hs.2⟩
    | none =>
      rw [hma] at h
      cases hf : find_match cs with
      | none => rw [hf] at h; simp at h
      | some pmr =>
        obtain ⟨pre0, m0, rest0⟩ := pmr
        rw [hf] at h
        dsimp only at h
        simp only [Option.some_inj, Prod.mk.injEq] at h
        obtain ⟨rfl, rfl, rfl⟩ := h
        have hs := ih pre0 m0 rest0 hf
        constructor
        · rw [hs.1]
          simp [List.append_assoc]
        · exact hs.2

/-- The matches found decompose the input: reassembling them yields the
original header. -/
theorem match_decomp_aux_plain :
    ∀ (fuel : Nat) (s : List Char),
      recompose_plain (match_decomp_aux fuel s) = s := by
  intro fuel
  induction fuel with
  | zero => intro s; simp [match_decomp_aux, recompose_plain]
  | succ f ih =>
    intro s
    rw [match_decomp_aux]
    cases hf : find_match s with
    | none => simp [recompose_plain]
    | some pmr =>
      obtain ⟨pre, m, rest⟩ := pmr
      dsimp only
      obtain ⟨hs, -⟩ := find_match_sound s pre m rest hf
      have hr := ih rest
      simp only [recompose_plain, List.map_cons, List.flatten_cons] at hr ⊢
      rw [List.append_assoc, List.append_assoc]
      rw [hr, hs]
      simp [List.append_assoc]

/-- `replace_all` equals the decomposition reassembled with the prefix
inserted before every matched identifier. -/
theorem match_decomp_aux_rw (pfx : List Char) :
    ∀ (fuel : Nat) (s : List Char),
      replace_all_aux pfx fuel s = recompose_rw pfx (match_decomp_aux fuel s) := by
  intro fuel
  induction fuel with
  | zero => intro s; simp [replace_all_aux, match_decomp_aux, recompose_rw]
  | succ f ih =>
    intro s
    rw [replace_all_aux, match_decomp_aux]
    cases hf : find_match s with
    | none => simp [recompose_rw]
    | some pmr =>
      obtain ⟨pre, m, rest⟩ := pmr
      dsimp only
      have hr := ih rest
      simp only [recompose_rw, List.map_cons, List.flatten_cons] at hr ⊢
      rw [hr]
      simp [List.append_assoc]

/-- Every match found has a non-empty identifier. -/
theorem match_decomp_aux_g2_ne :
    ∀ (fuel : Nat) (s : List Char) (pm : List Char × SigMatch),
      pm ∈ (match_decomp_aux fuel s).1 → pm.2.g2 ≠ [] := by
  intro fuel
  induction fuel with
  | zero => intro s pm h; simp [match_decomp_aux] at h
  | succ f ih =>
    intro s pm h
    rw [match_decomp_aux] at h
    cases hf : find_match s with
    | none => rw [hf] at h; simp at h
    | some pmr =>
      obtain ⟨pre, m, rest⟩ := pmr
      rw [hf] at h
      dsimp only at h
      rcases List.mem_cons.mp h with rfl | hmem
      · exact (find_match_sound s pre m rest hf).2
      · exact ih rest pm hmem

/-- Claim C3 (amended): over an arbitrary header text, one application of
the symbol-prefix rewrite leaves the unmatched text unchanged and prepends
the configured prefix to the identifier of every matched function
signature: the input is reassembled from the matches found, the output is
the same reassembly with the prefix inserted before each matched
identifier, and each rewritten identifier that did not already start with
the prefix begins with it exactly once (it starts with the prefix and not
with the prefix twice).  The rewrite is NOT idempotent on its own output:
see the counterexample theorem. -/
theorem C3_rewrite_header (pfx s : List Char) :
    recompose_plain (match_decomp s) = s
    ∧ replace_all pfx s = recompose_rw pfx (match_decomp s)
    ∧ (∀ pm ∈ (match_decomp s).1, pm.2.g2 ≠ [])
    ∧ (∀ pm ∈ (match_decomp s).1, ¬ List.IsPrefix pfx pm.2.g2 →
        List.IsPrefix pfx (pfx ++ pm.2.g2)
        ∧ ¬ List.IsPrefix (pfx ++ pfx) (pfx ++ pm.2.g2)) := by
  refine ⟨match_decomp_aux_plain s.length s, match_decomp_aux_rw pfx s.length s,
    fun pm hmem => match_decomp_aux_g2_ne s.length s pm hmem,
    fun pm _ hnp => ⟨List.prefix_append pfx pm.2.g2, fun hcon =>
      hnp ((List.prefix_append_right_inj pfx).mp hcon)⟩⟩

theorem C3_rewrite_header_witness :
    replace_all "P7_".toList
        "void wire_a(int p);\nint64_t *wire_b(char c);\n".toList
      = "void P7_wire_a(int p);\nint64_t *P7_wire_b(char c);\n".toList
    ∧ ¬ List.IsPrefix ("P7_".toList ++ "P7_".toList)
        ("P7_".toList ++ "wire_a".toList) := by
  have h := C3_rewrite_header "P7_".toList
    "void wire_a(int p);\nint64_t *wire_b(char c);\n".toList
  constructor
  · rw [h.2.1]; decide
  · exact (h.2.2.2 ([], ⟨"void ".toList, "wire_a".toList, "(int p);".toList⟩)
      (by decide) (by decide)).2

/-- The single-signature instance of the rewrite: a header consisting of
exactly one matched signature `ret name(args);` becomes
`ret <prefix>name(args);`, the identifier carrying the prefix exactly once
when it did not already start with it. -/
theorem C3_rewrite_single_signature (pfx ret name args : List Char)
    (hret : ret ≠ []) (hretw : ∀ c ∈ ret, isWordChar c = true)
    (hname : name ≠ []) (hnamew : ∀ c ∈ name, isWordChar c = true)
    (hargs : ∀ c ∈ args, isArgChar c = true) :
    replace_all pfx (ret ++ ' ' :: name ++ '(' :: args ++ [')', ';'])
      = ret ++ ' ' :: pfx ++ name ++ '(' :: args ++ [')', ';']
    ∧ (¬ List.IsPrefix pfx name →
        List.IsPrefix pfx (pfx ++ name)
        ∧ ¬ List.IsPrefix (pfx ++ pfx) (pfx ++ name)) := by
  obtain ⟨r0, rs, rfl⟩ : ∃ r0 rs, ret = r0 :: rs := by
    cases ret with
    | nil => exact absurd rfl hret
    | cons a l => exact ⟨a, l, rfl⟩
  obtain ⟨n0, ns, rfl⟩ : ∃ n0 ns, name = n0 :: ns := by
    cases name with
    | nil => exact absurd rfl hname
    | cons a l => exact ⟨a, l, rfl⟩
  have hsp : isWordChar ' ' = false := by decide
  have hlp : isWordChar '(' = false := by decide
  have hrp : isArgChar ')' = false := by decide
  have hn0 : isWordChar n0 = true := hnamew n0 (by simp)
  have hn0star : ¬ n0 = '*' := by
    intro h
    rw [h] at hn0
    exact absurd hn0 (by decide)
  constructor
  · have hd1 := takeWhile_append_not isWordChar (r0 :: rs) ' '
      ((n0 :: ns) ++ '(' :: args ++ [')', ';']) hretw hsp
    have hd2 := takeWhile_append_not isWordChar (n0 :: ns) '('
      (args ++ [')', ';']) hnamew hlp
    have hd3 := takeWhile_append_not isArgChar args ')' [';'] hargs hrp
    simp only [List.cons_append, List.append_assoc] at hd1 hd2 hd3
    have hm2 : rewrite_match_at
        (r0 :: (rs ++ (' ' :: (n0 :: (ns ++ ('(' :: (args ++ [')', ';'])))))))
        = some ({ g1 := r0 :: (rs ++ [' ']), g2 := n0 :: ns,
                  g3 := '(' :: (args ++ [')', ';']) }, []) := by
      unfold rewrite_match_at
      simp only [hd1.1, hd1.2, List.isEmpty_cons, Bool.false_eq_true, if_false,
        eq_self_iff_true, if_true, hn0star, List.length_nil, List.drop_zero,
        hd2.1, hd2.2, hd3.1, hd3.2]
      simp
    have hfind : find_match
        (r0 :: (rs ++ (' ' :: (n0 :: (ns ++ ('(' :: (args ++ [')', ';'])))))))
        = some ([], { g1 := r0 :: (rs ++ [' ']), g2 := n0 :: ns,
                      g3 := '(' :: (args ++ [')', ';']) }, []) := by
      simp only [find_match, hm2]
    have key : replace_all pfx
        (r0 :: (rs ++ (' ' :: (n0 :: (ns ++ ('(' :: (args ++ [')', ';'])))))))
        = (r0 :: (rs ++ [' '])) ++ pfx ++ (n0 :: ns)
            ++ ('(' :: (args ++ [')', ';'])) := by
      rw [replace_all]
      simp only [List.length_cons, replace_all_aux, hfind, replace_all_aux_nil]
      simp
    rw [show ((r0 :: rs) ++ ' ' :: (n0 :: ns) ++ '(' :: args ++ [')', ';'])
        = r0 :: (rs ++ (' ' :: (n0 :: (ns ++ ('(' :: (args ++ [')', ';']))))))
        from by simp]
    rw [key]
    simp [List.append_assoc]
  · intro hnp
    refine ⟨List.prefix_append pfx (n0 :: ns), ?_⟩
    intro hcon
    exact hnp ((List.prefix_append_right_inj pfx).mp hcon)

theorem C3_rewrite_single_signature_witness :
    replace_all "P7_".toList
        ("void".toList ++ ' ' :: "wire_add".toList ++ '('
          :: "int64_t port_".toList ++ [')', ';'])
      = "void".toList ++ ' ' :: "P7_".toList ++ "wire_add".toList ++ '('
          :: "int64_t port_".toList ++ [')', ';']
    ∧ ¬ List.IsPrefix ("P7_".toList ++ "P7_".toList)
        ("P7_".toList ++ "wire_add".toList) := by
  have h := C3_rewrite_single_signature "P7_".toList "void".toList
    "wire_add".toList "int64_t port_".toList
    (by decide) (by decide) (by decide) (by decide) (by decide)
  exact ⟨h.1, (h.2 (by decide)).2⟩

/-- Claim C3 as stated is false: the rewrite is not idempotent on its own
output.  One application of the rewrite to `void wire_add(int64_t port_);`
prefixes the identifier once; applying the rewrite again to that output
matches the already-prefixed identifier and prepends the prefix a second
time, yielding a duplicated prefix. -/
theorem C3_counterexample :
    replace_all "P7_".toList "void wire_add(int64_t port_);".toList
        = "void P7_wire_add(int64_t port_);".toList
    ∧ replace_all "P7_".toList "void P7_wire_add(int64_t port_);".toList
        = "void P7_P7_wire_add(int64_t port_);".toList
    ∧ replace_all "P7_".toList
          (replace_all "P7_".toList "void wire_add(int64_t port_);".toList)
        ≠ replace_all "P7_".toList "void wire_add(int64_t port_);".toList := by
  refine ⟨by decide, by decide, by decide⟩

end Frb
